import Mathlib

/-!
Verification of the attestation-policy and mutual-identity core of the
zero-trust SPIRE/TPM integration repository.

The Python source is embedded shallowly: strings become `List Char`,
Python's `str.lower`, `in` (substring), `str.split(sep, maxsplit)`,
`str.startswith` and the two `re.match` patterns are translated into
executable Lean functions.  `re.match` is translated with Python's
documented semantics for `$`: it matches at the end of the string **or
just before a newline at the end of the string**.  The character-class
tests are expressed on code points (`Char.toNat`), exactly matching the
ASCII classes used by the source patterns.
-/

/-- ASCII decimal digit, the class `[0-9]`. -/
def isDigitCh (c : Char) : Bool := 48 ≤ c.toNat && c.toNat ≤ 57

/-- Hexadecimal digit, the class `[0-9a-fA-F]`. -/
def isHexCh (c : Char) : Bool :=
  (48 ≤ c.toNat && c.toNat ≤ 57) || (97 ≤ c.toNat && c.toNat ≤ 102) ||
    (65 ≤ c.toNat && c.toNat ≤ 70)

/-- Trust-domain character, the class `[a-zA-Z0-9.-]`. -/
def isTdChar (c : Char) : Bool :=
  (97 ≤ c.toNat && c.toNat ≤ 122) || (65 ≤ c.toNat && c.toNat ≤ 90) ||
    (48 ≤ c.toNat && c.toNat ≤ 57) || c.toNat == 46 || c.toNat == 45

/-- Python `str.lower` on one character (ASCII range, which is the only
range exercised by the embedded code and claims). -/
def pyToLower (c : Char) : Char :=
  if 65 ≤ c.toNat ∧ c.toNat ≤ 90 then Char.ofNat (c.toNat + 32) else c

/-- Python `str.lower` over a whole string. -/
def pyLower (s : List Char) : List Char := s.map pyToLower

/-- Does `s` begin with `p`?  (Python `str.startswith`.) -/
def hasStart : List Char → List Char → Bool
  | [], _ => true
  | _ :: _, [] => false
  | a :: p, b :: s => a == b && hasStart p s

/-- Is `n` a contiguous substring of `hay`?  (Python `n in hay`.) -/
def containsSub (n : List Char) : List Char → Bool
  | [] => n.isEmpty
  | b :: s => hasStart n (b :: s) || containsSub n s

/-- Strip the literal `p` from the front of `s` (`some` of the remainder
on success), the way a regex engine consumes an anchored literal. -/
def dropStartL : List Char → List Char → Option (List Char)
  | [], s => some s
  | _ :: _, [] => none
  | c :: p, d :: s => if c = d then dropStartL p s else none

/-- First split of `s` at the separator `sep`: `some (before, after)` if
`sep` occurs, `none` otherwise. -/
def breakAt (sep : Char) : List Char → Option (List Char × List Char)
  | [] => none
  | c :: rest =>
    if c = sep then some ([], rest)
    else
      match breakAt sep rest with
      | none => none
      | some (a, b) => some (c :: a, b)

/-- Python `s.split(sep, maxsplit)`: at most `n` splits, remainder kept
whole. -/
def splitLimit (sep : Char) : Nat → List Char → List (List Char)
  | 0, s => [s]
  | n + 1, s =>
    match breakAt sep s with
    | none => [s]
    | some (a, b) => a :: splitLimit sep n b

/-- Tokens of a message: maximal runs between spaces (Python
`s.split(' ')` without a split limit). -/
def splitAllSp : List Char → List (List Char)
  | [] => [[]]
  | c :: rest =>
    let r := splitAllSp rest
    if c = ' ' then [] :: r
    else
      match r with
      | [] => [[c]]
      | a :: as => (c :: a) :: as

/-- `w` occurs in `s` as a whole space-delimited token. -/
def hasToken (w s : List Char) : Bool := (splitAllSp s).contains w

-- ## Basic lemmas about the string helpers

theorem hasStart_append (p t : List Char) : hasStart p (p ++ t) = true := by
  induction p with
  | nil => rfl
  | cons a p ih => simp [hasStart, ih]

theorem hasStart_extend {p s : List Char} (h : hasStart p s = true) (t : List Char) :
    hasStart p (s ++ t) = true := by
  induction p generalizing s with
  | nil => rfl
  | cons a p ih =>
    cases s with
    | nil => simp [hasStart] at h
    | cons b s =>
      simp only [hasStart, Bool.and_eq_true] at h ⊢
      exact ⟨h.1, ih h.2⟩

theorem containsSub_here (n t : List Char) : containsSub n (n ++ t) = true := by
  cases n with
  | nil => cases t <;> simp [containsSub, hasStart, List.isEmpty]
  | cons a n =>
    have h := hasStart_append (a :: n) t
    simp only [List.cons_append] at h
    simp [containsSub, h]

theorem containsSub_self (n : List Char) : containsSub n n = true := by
  have := containsSub_here n []
  simpa using this

theorem containsSub_append_left {n t : List Char} (h : containsSub n t = true)
    (x : List Char) : containsSub n (x ++ t) = true := by
  induction x with
  | nil => simpa
  | cons c x ih => simp [containsSub, ih]

theorem containsSub_append_right {n s : List Char} (h : containsSub n s = true)
    (t : List Char) : containsSub n (s ++ t) = true := by
  induction s with
  | nil =>
    cases n with
    | nil => cases t <;> simp [containsSub, hasStart, List.isEmpty]
    | cons a n => simp [containsSub, List.isEmpty] at h
  | cons b s ih =>
    simp only [containsSub, Bool.or_eq_true] at h
    rcases h with h | h
    · have h2 := hasStart_extend h t
      simp only [List.cons_append] at h2
      simp [containsSub, h2]
    · simp [containsSub, ih h]

theorem dropStartL_sound :
    ∀ (p s r : List Char), dropStartL p s = some r → s = p ++ r := by
  intro p
  induction p with
  | nil =>
    intro s r h
    simp only [dropStartL, Option.some.injEq] at h
    simp [h]
  | cons c p ih =>
    intro s r h
    cases s with
    | nil => simp [dropStartL] at h
    | cons d s =>
      by_cases hc : c = d
      · subst hc
        simp only [dropStartL, if_pos rfl] at h
        simpa using ih s r h
      · simp [dropStartL, hc] at h

theorem dropStartL_of_append (p r : List Char) : dropStartL p (p ++ r) = some r := by
  induction p with
  | nil => rfl
  | cons c p ih => simp [dropStartL, ih]

theorem takeWhile_all_append {p : Char → Bool} {l t : List Char}
    (hl : ∀ c ∈ l, p c = true) (ht : ∀ c l', t = c :: l' → p c = false) :
    (l ++ t).takeWhile p = l ∧ (l ++ t).dropWhile p = t := by
  induction l with
  | nil =>
    cases t with
    | nil => simp
    | cons c l' => simp [List.takeWhile, List.dropWhile, ht c l' rfl]
  | cons a l ih =>
    have ha : p a = true := hl a (by simp)
    have hrest : ∀ c ∈ l, p c = true := fun c hc => hl c (by simp [hc])
    obtain ⟨h1, h2⟩ := ih hrest
    simp [List.takeWhile, List.dropWhile, ha, h1, h2]

-- ## Embedded source functions

/-- `simulate_verification_status_report` from
`phase_4_tpm/tests/test_tpm_setup.py`: the status aggregator.  Combines
the three indicators into `(status_message, is_active)`; the parent-id
indicator alone decides activity, the other two only refine the text. -/
def simulate_verification_status_report (tpm_in_parent_id tpm_in_logs
    tpm_device_accessible : Bool) : List Char × Bool :=
  let is_active := tpm_in_parent_id
  let status_message :=
    if is_active then
      if tpm_in_logs && tpm_device_accessible then
        ("TPM ATTESTATION IS ACTIVE - All checks passed".toList)
      else if tpm_in_logs then
        ("TPM ATTESTATION IS ACTIVE - Device accessibility check failed".toList)
      else
        ("TPM ATTESTATION IS ACTIVE - Some checks failed".toList)
    else
      if tpm_device_accessible then
        ("TPM ATTESTATION IS INACTIVE - TPM device available but not configured".toList)
      else
        ("TPM ATTESTATION IS INACTIVE - TPM device not accessible".toList)
  (status_message, is_active)

/-- `simulate_ak_ek_validation` from `phase_4_tpm/tests/test_tpm_setup.py`:
the credential validator (`return ak_cert_valid and ek_pub_key_valid and
ak_signed_by_ek`). -/
def simulate_ak_ek_validation (ak_cert_valid ek_pub_key_valid
    ak_signed_by_ek : Bool) : Bool :=
  ak_cert_valid && ek_pub_key_valid && ak_signed_by_ek

/-- `simulate_pcr_match_check` from `phase_4_tpm/tests/test_tpm_setup.py`:
lowercases both digests and issues (returns `true`) iff they are equal. -/
def simulate_pcr_match_check (registered_pcr_hash current_pcr_hash : List Char) :
    Bool :=
  let registered_normalized := pyLower registered_pcr_hash
  let current_normalized := pyLower current_pcr_hash
  registered_normalized == current_normalized

/-- `simulate_pcr_mismatch_check` from `phase_4_tpm/tests/test_tpm_setup.py`:
lowercases both digests; on equality returns `(False, "")`, otherwise
denies with the diagnostic
`"PCR mismatch detected: Expected: {registered}, Actual: {current}"`. -/
def simulate_pcr_mismatch_check (registered_pcr_hash current_pcr_hash : List Char) :
    Bool × List Char :=
  let registered_normalized := pyLower registered_pcr_hash
  let current_normalized := pyLower current_pcr_hash
  if registered_normalized = current_normalized then
    (false, [])
  else
    (true,
      ("PCR mismatch detected: Expected: ".toList) ++ registered_normalized ++
        (", Actual: ".toList) ++ current_normalized)

/-- Body of `simulate_agent_parent_id_check` over the already-lowercased
id: requires `"tpm"` somewhere; when `"spiffe://"` occurs it splits on
`"/"` with maxsplit 3 and tests the path component (`len(parts) >= 4`),
or, with no path component (`len(parts) == 3`), the trust-domain
component; the remaining arms return `True`. -/
def parent_id_core (normalized_id : List Char) : Bool :=
  if containsSub ("tpm".toList) normalized_id then
    if containsSub ("spiffe://".toList) normalized_id then
      let parts := splitLimit '/' 3 normalized_id
      if 4 ≤ parts.length then
        containsSub ("tpm".toList) (parts.getD 3 [])
      else if parts.length = 3 then
        containsSub ("tpm".toList) (parts.getD 2 [])
      else true
    else true
  else false

/-- `simulate_agent_parent_id_check` from
`phase_4_tpm/tests/test_tpm_setup.py`: lowercases the whole id and runs
the containment/split logic of `parent_id_core` on it. -/
def simulate_agent_parent_id_check (agent_spiffe_id : List Char) : Bool :=
  parent_id_core (pyLower agent_spiffe_id)

/-- A peer certificate as the mTLS demo reads it: the optional
`subjectAltName` entry holds `(type, value)` pairs. -/
structure PeerCert where
  subjectAltName : Option (List (List Char × List Char))

/-- `extract_spiffe_id` from `phase_4_tpm/mtls_demo.py`: first URI-typed
subject-alternative-name entry whose value starts with `spiffe://`,
else `None`. -/
def findSpiffeEntry : List (List Char × List Char) → Option (List Char)
  | [] => none
  | (alt_name_type, alt_name_value) :: rest =>
    if alt_name_type == ("URI".toList) && hasStart ("spiffe://".toList) alt_name_value then
      some alt_name_value
    else findSpiffeEntry rest

/-- `extract_spiffe_id` from `phase_4_tpm/mtls_demo.py`. -/
def extract_spiffe_id (cert : PeerCert) : Option (List Char) :=
  match cert.subjectAltName with
  | some entries => findSpiffeEntry entries
  | none => none

/-- The SAN predicate of `extract_spiffe_id`, used to characterize it. -/
def sanSelect (e : List Char × List Char) : Bool :=
  e.1 == ("URI".toList) && hasStart ("spiffe://".toList) e.2

-- ## Session-handler trace model (run_server of phase_4_tpm/mtls_demo.py)

/-- Observable transport events of one responder cycle. -/
inductive NetEvent where
  | acceptConn
  | handshake
  | logClientId (id? : Option (List Char))
  | recvData (msg : List Char)
  | sendData (msg : List Char)
  | closeConn
deriving DecidableEq

/-- One inbound connection as the responder sees it: the peer certificate
produced by the completed handshake and the single payload it sends. -/
structure ClientConn where
  peerCert : PeerCert
  message : List Char

/-- The body of `run_server`'s `while True:` loop (success path), as an
event trace: one `accept`, the server-side handshake, identity logging
via `extract_spiffe_id`, one receive, the fixed reply, close. -/
def serverHandleConn (c : ClientConn) : List NetEvent :=
  [NetEvent.acceptConn, NetEvent.handshake,
   NetEvent.logClientId (extract_spiffe_id c.peerCert),
   NetEvent.recvData c.message,
   NetEvent.sendData ("Secure Hello from SPIRE Server!".toList),
   NetEvent.closeConn]

/-- The `while True:` accept loop observed over a finite arrival list:
cycles run back to back, one per inbound connection. -/
def run_server_loop (pending : List ClientConn) : List NetEvent :=
  (pending.map serverHandleConn).flatten

/-- Recognizes the accept event. -/
def isAcceptEv : NetEvent → Bool
  | NetEvent.acceptConn => true
  | _ => false

-- ## The two re.match validators

/-- Consume one `':'` (the literal colon between the regex groups). -/
def afterColon : List Char → Option (List Char)
  | c :: t => if c = ':' then some t else none
  | [] => none

/-- The index group `([0-9]|1[0-9]|2[0-3])` of the selector pattern
followed by the literal `':'`, with the engine's backtracking order:
a single digit is tried first and kept only if a colon follows, then
the two-digit alternatives.  Returns the group and the remainder after
the colon. -/
def pcrAlt (r : List Char) : Option (List Char × List Char) :=
  match r with
  | [] => none
  | c1 :: rest1 =>
    if isDigitCh c1 then
      match afterColon rest1 with
      | some t => some ([c1], t)
      | none =>
        if c1 = '1' then
          match rest1 with
          | c2 :: rest2 =>
            if isDigitCh c2 then
              match afterColon rest2 with
              | some t => some ([c1, c2], t)
              | none => none
            else none
          | [] => none
        else if c1 = '2' then
          match rest1 with
          | c2 :: rest2 =>
            if 48 ≤ c2.toNat && c2.toNat ≤ 51 then
              match afterColon rest2 with
              | some t => some ([c1, c2], t)
              | none => none
            else none
          | [] => none
        else none
    else none

/-- Python `int` on the digit group (`int(match.group(1))`). -/
def pcrVal (g : List Char) : Nat :=
  g.foldl (fun a c => 10 * a + (c.toNat - 48)) 0

/-- The full-string language of the index alternation — identical for
the source pattern `([0-9]|1[0-9]|2[0-3])` and the spec pattern
`(0|1?[0-9]|2[0-3])`: one digit, or `1` plus a digit, or `2` plus
`[0-3]`. -/
def idxGroupOk : List Char → Bool
  | [c] => isDigitCh c
  | [c1, c2] =>
    (c1 == '1' && isDigitCh c2) || (c1 == '2' && (48 ≤ c2.toNat && c2.toNat ≤ 51))
  | _ => false

/-- `validate_pcr_selector_format` from
`phase_4_tpm/tests/test_tpm_setup.py`:
`re.match(r'^tpm:pcr:([0-9]|1[0-9]|2[0-3]):([0-9a-fA-F]+)$', selector)`
(with Python's `$`, which also matches just before one final newline),
then the redundant 0–23 range check on `int(group(1))`, then
`len(group(2)) in [32, 40, 48, 64, 96, 128]`. -/
def validate_pcr_selector_format (selector : List Char) : Bool :=
  match dropStartL ("tpm:pcr:".toList) selector with
  | none => false
  | some r =>
    match pcrAlt r with
    | none => false
    | some (g, t) =>
      if (t.takeWhile isHexCh).isEmpty then false
      else if ¬ (t.dropWhile isHexCh = [] ∨ t.dropWhile isHexCh = ['\n']) then false
      else if 23 < pcrVal g then false
      else decide ((t.takeWhile isHexCh).length ∈ ([32, 40, 48, 64, 96, 128] : List Nat))

/-- `validate_tpm_agent_spiffe_id_format` from
`phase_4_tpm/tests/test_tpm_setup.py`:
`re.match(r'^spiffe://[a-zA-Z0-9.-]+/spire/agent/tpm/[0-9a-fA-F]+$', id)`
(again with Python's `$` also matching just before one final newline). -/
def validate_tpm_agent_spiffe_id_format (spiffe_id : List Char) : Bool :=
  match dropStartL ("spiffe://".toList) spiffe_id with
  | none => false
  | some r1 =>
    if (r1.takeWhile isTdChar).isEmpty then false
    else
      match dropStartL ("/spire/agent/tpm/".toList) (r1.dropWhile isTdChar) with
      | none => false
      | some r3 =>
        !(r3.takeWhile isHexCh).isEmpty &&
          (decide (r3.dropWhile isHexCh = []) || decide (r3.dropWhile isHexCh = ['\n']))

-- ## Spec-side languages for the two validators

/-- Modelled from the spec: membership of `s` in the language of
`^tpm:pcr:(0|1?[0-9]|2[0-3]):[0-9a-fA-F]{32,128}$` under exact
(whole-string) anchoring, together with the spec's digest-length set
`{32, 40, 48, 64, 96, 128}`. -/
def SelForm (s : List Char) : Prop :=
  ∃ g h, idxGroupOk g = true ∧ (∀ c ∈ h, isHexCh c = true) ∧
    32 ≤ h.length ∧ h.length ≤ 128 ∧
    h.length ∈ ([32, 40, 48, 64, 96, 128] : List Nat) ∧
    s = ("tpm:pcr:".toList) ++ (g ++ ':' :: h)

/-- Modelled from the spec: the claimed agent-identity language — the
scheme, `://`, a non-empty trust domain over letters, digits, dots and
hyphens, the literal path `/spire/agent/tpm/`, one or more hex
characters, and nothing following. -/
def AgentForm (u : List Char) : Prop :=
  ∃ td hx, td ≠ [] ∧ (∀ c ∈ td, isTdChar c = true) ∧
    hx ≠ [] ∧ (∀ c ∈ hx, isHexCh c = true) ∧
    u = ("spiffe://".toList) ++ (td ++ ("/spire/agent/tpm/".toList ++ hx))

-- ## Further helper lemmas

theorem toNat_ofNat_small {n : Nat} (h : n < 55296) : (Char.ofNat n).toNat = n := by
  have hv : n.isValidChar := Or.inl h
  unfold Char.ofNat
  rw [dif_pos hv]
  rfl

theorem pyToLower_ne_slash {c : Char} (h : c ≠ '/') : pyToLower c ≠ '/' := by
  unfold pyToLower
  split
  · rename_i hr
    intro hEq
    have h1 : (Char.ofNat (c.toNat + 32)).toNat = c.toNat + 32 :=
      toNat_ofNat_small (by omega)
    rw [hEq] at h1
    have h2 : ('/' : Char).toNat = 47 := rfl
    omega
  · exact h

theorem slash_not_mem_pyLower {auth : List Char} (h : '/' ∉ auth) :
    '/' ∉ pyLower auth := by
  simp only [pyLower, List.mem_map, not_exists, not_and]
  intro c hc hEq
  exact pyToLower_ne_slash (fun h2 => h (h2 ▸ hc)) hEq

theorem breakAt_not_mem {sep : Char} {l : List Char} (h : sep ∉ l) :
    breakAt sep l = none := by
  induction l with
  | nil => rfl
  | cons c rest ih =>
    have hc : ¬ c = sep := fun e => h (by simp [e])
    have hr : sep ∉ rest := fun m => h (List.mem_cons_of_mem _ m)
    simp [breakAt, hc, ih hr]

theorem breakAt_append {sep : Char} {l : List Char} (h : sep ∉ l) (t : List Char) :
    breakAt sep (l ++ sep :: t) = some (l, t) := by
  induction l with
  | nil => simp [breakAt]
  | cons c rest ih =>
    have hc : ¬ c = sep := fun e => h (by simp [e])
    have hr : sep ∉ rest := fun m => h (List.mem_cons_of_mem _ m)
    simp [breakAt, hc, ih hr]

theorem serverHandleConn_countP (c : ClientConn) :
    (serverHandleConn c).countP isAcceptEv = 1 := by
  simp [serverHandleConn, List.countP_cons, isAcceptEv]

-- ## Claim theorems

/-- C1: for every combination of the three boolean inputs, the status
aggregator's explanation is non-empty and carries exactly one of the two
status tokens `ACTIVE` / `INACTIVE`, never both.  A token is a whole
space-delimited word of the message — the only reading under which
"never both" is satisfiable at all, since the characters of `ACTIVE`
occur inside the word `INACTIVE`. -/
theorem status_token_mutual_exclusion (a b c : Bool) :
    (simulate_verification_status_report a b c).1 ≠ [] ∧
    hasToken ("ACTIVE".toList) (simulate_verification_status_report a b c).1
      ≠ hasToken ("INACTIVE".toList) (simulate_verification_status_report a b c).1 := by
  cases a <;> cases b <;> cases c <;> exact ⟨by decide, by decide⟩

/-- Witness for C1 at the all-false input. -/
theorem status_token_mutual_exclusion_witness :
    (simulate_verification_status_report false false false).1 ≠ [] ∧
    hasToken ("ACTIVE".toList) (simulate_verification_status_report false false false).1
      ≠ hasToken ("INACTIVE".toList) (simulate_verification_status_report false false false).1 :=
  status_token_mutual_exclusion false false false

/-- C6: whenever the identity-format indicator is true the aggregate
status is active, `ACTIVE` appears in the explanation and `INACTIVE`
does not, regardless of the other two flags. -/
theorem status_active_when_identity_ok (b c : Bool) :
    (simulate_verification_status_report true b c).2 = true ∧
    containsSub ("ACTIVE".toList) (simulate_verification_status_report true b c).1 = true ∧
    containsSub ("INACTIVE".toList) (simulate_verification_status_report true b c).1 = false := by
  cases b <;> cases c <;> exact ⟨rfl, by decide, by decide⟩

/-- Witness for C6 with both refining flags false. -/
theorem status_active_when_identity_ok_witness :
    (simulate_verification_status_report true false false).2 = true ∧
    containsSub ("ACTIVE".toList) (simulate_verification_status_report true false false).1 = true ∧
    containsSub ("INACTIVE".toList) (simulate_verification_status_report true false false).1 = false :=
  status_active_when_identity_ok false false

/-- C9: the credential validator is exactly the boolean conjunction of
its three inputs. -/
theorem ak_ek_validation_is_conjunction (a b c : Bool) :
    simulate_ak_ek_validation a b c = (a && b && c) := rfl

/-- Witness for C9 at the spec's example `(true, true, false)`. -/
theorem ak_ek_validation_is_conjunction_witness :
    simulate_ak_ek_validation true true false = false :=
  (ak_ek_validation_is_conjunction true true false).trans rfl

/-- C8: digests equal after case-normalization (the empty pair included)
are never denied: the mismatch checker reports `denied = false` and the
match checker issues. -/
theorem pcr_equal_digests_not_denied (d1 d2 : List Char)
    (h : pyLower d1 = pyLower d2) :
    (simulate_pcr_mismatch_check d1 d2).1 = false ∧
    simulate_pcr_match_check d1 d2 = true := by
  constructor
  · simp [simulate_pcr_mismatch_check, h]
  · simp [simulate_pcr_match_check, h]

/-- Witness for C8: mixed-case equal digests, and thus also the
reflexive and empty cases. -/
theorem pcr_equal_digests_not_denied_witness :
    (simulate_pcr_mismatch_check ("AB".toList) ("ab".toList)).1 = false ∧
    simulate_pcr_match_check ("AB".toList) ("ab".toList) = true :=
  pcr_equal_digests_not_denied ("AB".toList) ("ab".toList) (by decide)

/-- C5: hex digests that differ after case-normalization are denied, and
the diagnostic literally contains both normalized digests and the word
`mismatch` (case-insensitively). -/
theorem pcr_mismatch_denies_with_diagnostic (d1 d2 : List Char)
    (h1 : ∀ c ∈ d1, isHexCh c = true) (h2 : ∀ c ∈ d2, isHexCh c = true)
    (hne : pyLower d1 ≠ pyLower d2) :
    (simulate_pcr_mismatch_check d1 d2).1 = true ∧
    containsSub (pyLower d1) (simulate_pcr_mismatch_check d1 d2).2 = true ∧
    containsSub (pyLower d2) (simulate_pcr_mismatch_check d1 d2).2 = true ∧
    containsSub ("mismatch".toList) (pyLower (simulate_pcr_mismatch_check d1 d2).2) = true := by
  have hmsg : (simulate_pcr_mismatch_check d1 d2).2 =
      ("PCR mismatch detected: Expected: ".toList) ++
        (pyLower d1 ++ (", Actual: ".toList ++ pyLower d2)) := by
    simp [simulate_pcr_mismatch_check, hne, List.append_assoc]
  refine ⟨by simp [simulate_pcr_mismatch_check, hne], ?_, ?_, ?_⟩
  · rw [hmsg]
    exact containsSub_append_left (containsSub_here _ _) _
  · rw [hmsg]
    exact containsSub_append_left
      (containsSub_append_left (containsSub_append_left (containsSub_self _) _) _) _
  · rw [hmsg]
    have hdist : pyLower ("PCR mismatch detected: Expected: ".toList ++
        (pyLower d1 ++ (", Actual: ".toList ++ pyLower d2))) =
        pyLower ("PCR mismatch detected: Expected: ".toList) ++
          pyLower (pyLower d1 ++ (", Actual: ".toList ++ pyLower d2)) := by
      simp [pyLower]
    rw [hdist]
    exact containsSub_append_right (by decide) _

/-- Witness for C5 at a concrete mixed-case mismatching pair. -/
theorem pcr_mismatch_denies_with_diagnostic_witness :
    (simulate_pcr_mismatch_check ("0A".toList) ("0b".toList)).1 = true ∧
    containsSub (pyLower ("0A".toList)) (simulate_pcr_mismatch_check ("0A".toList) ("0b".toList)).2 = true ∧
    containsSub (pyLower ("0b".toList)) (simulate_pcr_mismatch_check ("0A".toList) ("0b".toList)).2 = true ∧
    containsSub ("mismatch".toList)
      (pyLower (simulate_pcr_mismatch_check ("0A".toList) ("0b".toList)).2) = true :=
  pcr_mismatch_denies_with_diagnostic ("0A".toList) ("0b".toList)
    (by decide) (by decide) (by decide)

theorem findSpiffeEntry_eq (entries : List (List Char × List Char)) :
    findSpiffeEntry entries = (entries.find? sanSelect).map Prod.snd := by
  induction entries with
  | nil => rfl
  | cons e rest ih =>
    obtain ⟨t, v⟩ := e
    cases hs : (t == ("URI".toList) && hasStart ("spiffe://".toList) v) with
    | true =>
      have hp : sanSelect (t, v) = true := hs
      rw [List.find?_cons_of_pos _ hp]
      have hcomp := hs
      simp only [Bool.and_eq_true, beq_iff_eq] at hcomp
      have hv' : hasStart ['s', 'p', 'i', 'f', 'f', 'e', ':', '/', '/'] v = true := hcomp.2
      simp [findSpiffeEntry, hcomp.1, hv']
    | false =>
      have hp : ¬ sanSelect (t, v) = true := by
        have hp0 : sanSelect (t, v) = false := hs
        simp [hp0]
      rw [List.find?_cons_of_neg _ hp, ← ih]
      simp only [findSpiffeEntry]
      split
      · rename_i hcond
        exact absurd hcond hp
      · rfl

/-- C7: the identity extractor returns the value of the first URI-typed
subject-alternative-name entry whose value begins with `spiffe://`,
returns `none` (not an error) when no such entry exists, and anything it
returns stems from a URI-typed entry — never a DNS-typed one. -/
theorem extract_first_spiffe_uri (entries : List (List Char × List Char)) :
    extract_spiffe_id ⟨some entries⟩ = (entries.find? sanSelect).map Prod.snd ∧
    ((∀ e ∈ entries, sanSelect e = false) → extract_spiffe_id ⟨some entries⟩ = none) ∧
    (∀ v, extract_spiffe_id ⟨some entries⟩ = some v →
      ∃ e ∈ entries, e.1 = ("URI".toList) ∧ e.2 = v ∧
        hasStart ("spiffe://".toList) e.2 = true) := by
  have hbase : extract_spiffe_id ⟨some entries⟩ = (entries.find? sanSelect).map Prod.snd :=
    findSpiffeEntry_eq entries
  refine ⟨hbase, ?_, ?_⟩
  · intro hall
    rw [hbase]
    have hnone : entries.find? sanSelect = none :=
      List.find?_eq_none.mpr (fun x hx => by simp [hall x hx])
    simp [hnone]
  · intro v hv
    rw [hbase] at hv
    cases hf : entries.find? sanSelect with
    | none => simp [hf] at hv
    | some e =>
      rw [hf] at hv
      simp only [Option.map_some', Option.some.injEq] at hv
      have hmem := List.mem_of_find?_eq_some hf
      have hp := List.find?_some hf
      simp only [sanSelect, Bool.and_eq_true, beq_iff_eq] at hp
      exact ⟨e, hmem, hp.1, hv, hp.2⟩

/-- Witness for C7: a DNS entry whose text resembles the scheme is
skipped; the first URI-typed entry is returned. -/
theorem extract_first_spiffe_uri_witness :
    extract_spiffe_id ⟨some [("DNS".toList, ("spiffe://dns.example".toList)),
      ("URI".toList, ("spiffe://example.org/test-workload".toList))]⟩ =
      some ("spiffe://example.org/test-workload".toList) := by
  have h := (extract_first_spiffe_uri [("DNS".toList, ("spiffe://dns.example".toList)),
    ("URI".toList, ("spiffe://example.org/test-workload".toList))]).1
  rw [h]
  decide

theorem run_server_loop_countP (pending : List ClientConn) :
    (run_server_loop pending).countP isAcceptEv = pending.length := by
  induction pending with
  | nil => rfl
  | cons a l ih =>
    have hsplit : run_server_loop (a :: l) = serverHandleConn a ++ run_server_loop l := by
      simp [run_server_loop]
    rw [hsplit, List.countP_append, serverHandleConn_countP, ih, List.length_cons]
    omega

/-- C2: within one listen-accept cycle of the responder, exactly one
connection is accepted — the cycle starts with its single accept event
and performs the whole exchange without accepting again — and over any
finite run of cycles the accepts equal the handled connections, one
each. -/
theorem responder_one_accept_per_cycle (c : ClientConn) (pending : List ClientConn) :
    (serverHandleConn c).countP isAcceptEv = 1 ∧
    (serverHandleConn c).head? = some NetEvent.acceptConn ∧
    (serverHandleConn c).tail.countP isAcceptEv = 0 ∧
    (run_server_loop pending).countP isAcceptEv = pending.length := by
  refine ⟨serverHandleConn_countP c, rfl, ?_, run_server_loop_countP pending⟩
  simp [serverHandleConn, List.countP_cons, isAcceptEv]

/-- Witness for C2 at a singleton connection. -/
theorem responder_one_accept_per_cycle_witness :
    (serverHandleConn ⟨⟨none⟩, ("Hello from SPIRE Client!".toList)⟩).countP isAcceptEv = 1 ∧
    (serverHandleConn ⟨⟨none⟩, ("Hello from SPIRE Client!".toList)⟩).head? =
      some NetEvent.acceptConn ∧
    (serverHandleConn ⟨⟨none⟩, ("Hello from SPIRE Client!".toList)⟩).tail.countP isAcceptEv = 0 ∧
    (run_server_loop [⟨⟨none⟩, ("Hello from SPIRE Client!".toList)⟩]).countP isAcceptEv =
      [(⟨⟨none⟩, ("Hello from SPIRE Client!".toList)⟩ : ClientConn)].length :=
  responder_one_accept_per_cycle _ _

theorem pyLower_split_id (auth path : List Char) :
    pyLower ("spiffe://".toList ++ (auth ++ ('/' :: path))) =
      ("spiffe://".toList) ++ (pyLower auth ++ ('/' :: pyLower path)) := by
  have e1 : List.map pyToLower ("spiffe://".toList) = ("spiffe://".toList) := by decide
  have e2 : pyToLower '/' = '/' := by decide
  simp only [pyLower, List.map_append, List.map_cons, e1, e2]

theorem pyLower_noslash_id (auth : List Char) :
    pyLower ("spiffe://".toList ++ auth) = ("spiffe://".toList) ++ pyLower auth := by
  have e1 : List.map pyToLower ("spiffe://".toList) = ("spiffe://".toList) := by decide
  simp only [pyLower, List.map_append, e1]

theorem splitLimit_spiffe_with_path (la lp : List Char) (hla : '/' ∉ la) :
    splitLimit '/' 3 ("spiffe://".toList ++ (la ++ ('/' :: lp)))
      = [("spiffe:".toList), [], la, lp] := by
  have hform : ("spiffe://".toList : List Char) ++ (la ++ ('/' :: lp))
      = ("spiffe:".toList) ++ ('/' :: ('/' :: (la ++ ('/' :: lp)))) := rfl
  rw [hform]
  simp [splitLimit, breakAt, breakAt_append hla]

theorem splitLimit_spiffe_no_path (la : List Char) (hla : '/' ∉ la) :
    splitLimit '/' 3 ("spiffe://".toList ++ la) = [("spiffe:".toList), [], la] := by
  have hform : ("spiffe://".toList : List Char) ++ la
      = ("spiffe:".toList) ++ ('/' :: ('/' :: la)) := rfl
  rw [hform]
  simp [splitLimit, breakAt, breakAt_not_mem hla]

/-- C10: the parent-id hardware-attestation check is a case-insensitive
substring test, not a structural format check: on
`spiffe://<authority>/<path>` it answers exactly whether the lowercased
path contains `tpm`, and on a path-less `spiffe://<authority>` it
answers exactly whether the lowercased trust domain contains `tpm`. -/
theorem parent_id_check_is_substring_test :
    (∀ auth path : List Char, '/' ∉ auth →
      simulate_agent_parent_id_check ("spiffe://".toList ++ (auth ++ ('/' :: path)))
        = containsSub ("tpm".toList) (pyLower path)) ∧
    (∀ auth : List Char, '/' ∉ auth →
      simulate_agent_parent_id_check ("spiffe://".toList ++ auth)
        = containsSub ("tpm".toList) (pyLower auth)) := by
  constructor
  · intro auth path hna
    have hla : '/' ∉ pyLower auth := slash_not_mem_pyLower hna
    unfold simulate_agent_parent_id_check
    rw [pyLower_split_id]
    cases hguard : containsSub ("tpm".toList)
        ("spiffe://".toList ++ (pyLower auth ++ ('/' :: pyLower path))) with
    | false =>
      unfold parent_id_core
      rw [if_neg (fun hcon => Bool.false_ne_true (hguard ▸ hcon))]
      cases hp : containsSub ("tpm".toList) (pyLower path) with
      | false => rfl
      | true =>
        exfalso
        have h1 : containsSub ("tpm".toList) (['/'] ++ pyLower path) = true :=
          containsSub_append_left hp _
        have h2 : containsSub ("tpm".toList) (pyLower auth ++ (['/'] ++ pyLower path)) = true :=
          containsSub_append_left h1 _
        have h3 : containsSub ("tpm".toList)
            ("spiffe://".toList ++ (pyLower auth ++ (['/'] ++ pyLower path))) = true :=
          containsSub_append_left h2 _
        simp only [List.singleton_append] at h3
        rw [hguard] at h3
        exact Bool.false_ne_true h3
    | true =>
      unfold parent_id_core
      rw [if_pos hguard,
        if_pos (containsSub_here ("spiffe://".toList) (pyLower auth ++ ('/' :: pyLower path))),
        splitLimit_spiffe_with_path (pyLower auth) (pyLower path) hla]
      simp [List.getD]
  · intro auth hna
    have hla : '/' ∉ pyLower auth := slash_not_mem_pyLower hna
    unfold simulate_agent_parent_id_check
    rw [pyLower_noslash_id]
    cases hguard : containsSub ("tpm".toList) ("spiffe://".toList ++ pyLower auth) with
    | false =>
      unfold parent_id_core
      rw [if_neg (fun hcon => Bool.false_ne_true (hguard ▸ hcon))]
      cases hp : containsSub ("tpm".toList) (pyLower auth) with
      | false => rfl
      | true =>
        exfalso
        have h2 : containsSub ("tpm".toList) ("spiffe://".toList ++ pyLower auth) = true :=
          containsSub_append_left hp _
        rw [hguard] at h2
        exact Bool.false_ne_true h2
    | true =>
      unfold parent_id_core
      rw [if_pos hguard,
        if_pos (containsSub_here ("spiffe://".toList) (pyLower auth)),
        splitLimit_spiffe_no_path (pyLower auth) hla]
      simp [List.getD]

/-- Witness for C10 at the claim's own example: the workload path
`my-tpm-workload` is classified as hardware-attested. -/
theorem parent_id_check_is_substring_test_witness :
    simulate_agent_parent_id_check
      ("spiffe://".toList ++ ("example.org".toList ++ ('/' :: ("my-tpm-workload".toList))))
      = true :=
  (parent_id_check_is_substring_test.1 ("example.org".toList) ("my-tpm-workload".toList)
    (by decide)).trans (by decide)

-- ## Lemmas for the selector-pattern matcher

theorem afterColon_colon (t : List Char) : afterColon (':' :: t) = some t := by
  simp [afterColon]

theorem afterColon_ne {c : Char} (h : ¬ c = ':') (l : List Char) :
    afterColon (c :: l) = none := by
  simp [afterColon, h]

theorem afterColon_some {l t : List Char} (h : afterColon l = some t) : l = ':' :: t := by
  cases l with
  | nil => simp [afterColon] at h
  | cons c l' =>
    by_cases hc : c = ':'
    · subst hc
      rw [afterColon_colon] at h
      cases h
      rfl
    · rw [afterColon_ne hc] at h
      cases h

theorem isDigitCh_ne_colon {c : Char} (h : isDigitCh c = true) : ¬ c = ':' := by
  intro he
  rw [he] at h
  exact absurd h (by decide)

theorem range03_ne_colon {c : Char} (h : (48 ≤ c.toNat && c.toNat ≤ 51) = true) :
    ¬ c = ':' := by
  intro he
  rw [he] at h
  exact absurd h (by decide)

theorem pcrAlt_sound {r g t : List Char} (h : pcrAlt r = some (g, t)) :
    r = g ++ ':' :: t ∧ idxGroupOk g = true := by
  cases r with
  | nil => simp [pcrAlt] at h
  | cons c1 rest1 =>
    simp only [pcrAlt] at h
    by_cases hd : isDigitCh c1 = true
    · rw [if_pos hd] at h
      cases e2 : afterColon rest1 with
      | some t' =>
        rw [e2] at h
        simp only [Option.some.injEq, Prod.mk.injEq] at h
        obtain ⟨hg, ht⟩ := h
        subst hg; subst ht
        exact ⟨by rw [afterColon_some e2]; rfl, by simpa [idxGroupOk] using hd⟩
      | none =>
        rw [e2] at h
        by_cases h1 : c1 = '1'
        · rw [if_pos h1] at h
          cases rest1 with
          | nil => simp at h
          | cons c2 rest2 =>
            simp only [] at h
            by_cases hd2 : isDigitCh c2 = true
            · rw [if_pos hd2] at h
              cases e3 : afterColon rest2 with
              | some t' =>
                rw [e3] at h
                simp only [Option.some.injEq, Prod.mk.injEq] at h
                obtain ⟨hg, ht⟩ := h
                subst hg; subst ht
                refine ⟨by rw [afterColon_some e3]; rfl, ?_⟩
                simp [idxGroupOk, h1, hd2]
              | none => rw [e3] at h; simp at h
            · rw [if_neg hd2] at h; simp at h
        · rw [if_neg h1] at h
          by_cases h2 : c1 = '2'
          · rw [if_pos h2] at h
            cases rest1 with
            | nil => simp at h
            | cons c2 rest2 =>
              simp only [] at h
              by_cases hr2 : (48 ≤ c2.toNat && c2.toNat ≤ 51) = true
              · rw [if_pos hr2] at h
                cases e3 : afterColon rest2 with
                | some t' =>
                  rw [e3] at h
                  simp only [Option.some.injEq, Prod.mk.injEq] at h
                  obtain ⟨hg, ht⟩ := h
                  subst hg; subst ht
                  refine ⟨by rw [afterColon_some e3]; rfl, ?_⟩
                  simp [idxGroupOk, h2, hr2]
                | none => rw [e3] at h; simp at h
              · rw [if_neg hr2] at h; simp at h
          · rw [if_neg h2] at h; simp at h
    · rw [if_neg hd] at h; simp at h

theorem pcrAlt_complete {g : List Char} (hg : idxGroupOk g = true) (t : List Char) :
    pcrAlt (g ++ ':' :: t) = some (g, t) := by
  match g with
  | [c] =>
    have hd : isDigitCh c = true := by simpa [idxGroupOk] using hg
    show pcrAlt (c :: ':' :: t) = some ([c], t)
    simp [pcrAlt, afterColon, hd]
  | [c1, c2] =>
    have hg' : (c1 == '1' && isDigitCh c2) = true ∨
        (c1 == '2' && (decide (48 ≤ c2.toNat) && decide (c2.toNat ≤ 51))) = true := by
      simpa [idxGroupOk, Bool.or_eq_true] using hg
    show pcrAlt (c1 :: c2 :: ':' :: t) = some ([c1, c2], t)
    rcases hg' with hcase | hcase
    · rw [Bool.and_eq_true, beq_iff_eq] at hcase
      obtain ⟨h1, hd2⟩ := hcase
      subst h1
      have hne : ¬ c2 = ':' := isDigitCh_ne_colon hd2
      simp [pcrAlt, afterColon, hne, hd2, (by decide : isDigitCh '1' = true)]
    · rw [Bool.and_eq_true, beq_iff_eq] at hcase
      obtain ⟨h2, hr2⟩ := hcase
      subst h2
      have h51 : c2.toNat ≤ 51 := by
        have hsplit := (Bool.and_eq_true _ _).mp hr2
        simpa using hsplit.2
      have hne : ¬ c2 = ':' := fun he => by
        rw [he] at h51
        exact absurd h51 (by decide)
      simp [pcrAlt, afterColon, hne, hr2, (by decide : isDigitCh '2' = true)]

theorem pcrVal_le_23 {g : List Char} (hg : idxGroupOk g = true) : pcrVal g ≤ 23 := by
  match g, hg with
  | [c], hg =>
    have hd : isDigitCh c = true := by simpa [idxGroupOk] using hg
    simp only [isDigitCh, Bool.and_eq_true, decide_eq_true_eq] at hd
    simp only [pcrVal, List.foldl]
    omega
  | [c1, c2], hg =>
    simp only [idxGroupOk, Bool.or_eq_true, Bool.and_eq_true, beq_iff_eq] at hg
    rcases hg with ⟨h1, hd2⟩ | ⟨h2, hr2⟩
    · subst h1
      simp only [isDigitCh, Bool.and_eq_true, decide_eq_true_eq] at hd2
      have e1 : ('1' : Char).toNat = 49 := by decide
      simp only [pcrVal, List.foldl, e1]
      omega
    · subst h2
      simp only [Bool.and_eq_true, decide_eq_true_eq] at hr2
      have e2 : ('2' : Char).toNat = 50 := by decide
      simp only [pcrVal, List.foldl, e2]
      omega

theorem validate_on_selector_form {g h : List Char} (tl : List Char)
    (hg : idxGroupOk g = true) (hhex : ∀ c ∈ h, isHexCh c = true)
    (hlen : h.length ∈ ([32, 40, 48, 64, 96, 128] : List Nat))
    (htl : tl = [] ∨ tl = ['\n']) :
    validate_pcr_selector_format ("tpm:pcr:".toList ++ (g ++ ':' :: (h ++ tl))) = true := by
  have hne : h ≠ [] := by
    intro h0
    rw [h0] at hlen
    simp at hlen
  have hhead : ∀ c l', tl = c :: l' → isHexCh c = false := by
    intro c l' hc
    rcases htl with h0 | h0 <;> rw [h0] at hc
    · simp at hc
    · have hc2 : '\n' = c ∧ [] = l' := by simpa using hc
      rw [← hc2.1]
      decide
  obtain ⟨htake, hdrop⟩ := takeWhile_all_append hhex hhead
  unfold validate_pcr_selector_format
  rw [dropStartL_of_append]
  try simp only []
  rw [pcrAlt_complete hg]
  try simp only []
  rw [htake, hdrop]
  rw [if_neg (show ¬ (h.isEmpty = true) from fun hcon => hne (by simpa using hcon))]
  rw [if_neg (not_not_intro htl)]
  rw [if_neg (show ¬ 23 < pcrVal g from by have := pcrVal_le_23 hg; omega)]
  simpa using hlen

/-- C3 (amended): the selector validator accepts `s` iff `s` matches
`^tpm:pcr:(0|1?[0-9]|2[0-3]):[0-9a-fA-F]{32,128}$` with digest length in
{32, 40, 48, 64, 96, 128}, **or** `s` is such a string followed by one
trailing newline — the latter because Python's `re` lets `$` match just
before a final newline. -/
theorem selector_validator_language (s : List Char) :
    validate_pcr_selector_format s = true ↔
      (SelForm s ∨ ∃ s0, s = s0 ++ ['\n'] ∧ SelForm s0) := by
  constructor
  · intro hv
    unfold validate_pcr_selector_format at hv
    cases e1 : dropStartL ("tpm:pcr:".toList) s with
    | none => rw [e1] at hv; simp at hv
    | some r =>
      rw [e1] at hv
      try simp only [] at hv
      cases e2 : pcrAlt r with
      | none => rw [e2] at hv; simp at hv
      | some gt =>
        obtain ⟨g, t⟩ := gt
        rw [e2] at hv
        try simp only [] at hv
        by_cases hemp : (t.takeWhile isHexCh).isEmpty = true
        · rw [if_pos hemp] at hv; simp at hv
        · rw [if_neg hemp] at hv
          by_cases hneg : ¬ (t.dropWhile isHexCh = [] ∨ t.dropWhile isHexCh = ['\n'])
          · rw [if_pos hneg] at hv; simp at hv
          · rw [if_neg hneg] at hv
            have htl := not_not.mp hneg
            by_cases hrange : 23 < pcrVal g
            · rw [if_pos hrange] at hv; simp at hv
            · rw [if_neg hrange] at hv
              have hlen : (t.takeWhile isHexCh).length ∈ ([32, 40, 48, 64, 96, 128] : List Nat) :=
                of_decide_eq_true hv
              obtain ⟨hr, hg⟩ := pcrAlt_sound e2
              have hs : s = ("tpm:pcr:".toList) ++ r := dropStartL_sound _ _ _ e1
              have hallhex : ∀ c ∈ t.takeWhile isHexCh, isHexCh c = true :=
                fun c hc => List.mem_takeWhile_imp hc
              have hb : 32 ≤ (t.takeWhile isHexCh).length ∧
                  (t.takeWhile isHexCh).length ≤ 128 := by
                have hb0 := hlen
                simp only [List.mem_cons, List.not_mem_nil, or_false] at hb0
                rcases hb0 with h0 | h0 | h0 | h0 | h0 | h0 <;> rw [h0] <;>
                  exact ⟨by norm_num, by norm_num⟩
              rcases htl with htl | htl
              · left
                refine ⟨g, t.takeWhile isHexCh, hg, hallhex, hb.1, hb.2, hlen, ?_⟩
                have htEq : t = t.takeWhile isHexCh := by
                  conv_lhs => rw [← List.takeWhile_append_dropWhile isHexCh t]
                  rw [htl, List.append_nil]
                rw [hs, hr, ← htEq]
              · right
                refine ⟨("tpm:pcr:".toList) ++ (g ++ ':' :: t.takeWhile isHexCh), ?_,
                  g, t.takeWhile isHexCh, hg, hallhex, hb.1, hb.2, hlen, rfl⟩
                rw [hs, hr]
                have htEq : t = t.takeWhile isHexCh ++ ['\n'] := by
                  conv_lhs => rw [← List.takeWhile_append_dropWhile isHexCh t]
                  rw [htl]
                conv_lhs => rw [htEq]
                simp [List.append_assoc]
  · intro hcase
    rcases hcase with ⟨g, h, hg, hhex, _, _, hlen, rfl⟩ |
      ⟨s0, rfl, g, h, hg, hhex, _, _, hlen, rfl⟩
    · have hval := validate_on_selector_form [] hg hhex hlen (Or.inl rfl)
      simpa using hval
    · have hval := validate_on_selector_form ['\n'] hg hhex hlen (Or.inr rfl)
      have hEq : ("tpm:pcr:".toList ++ (g ++ ':' :: h)) ++ ['\n']
          = ("tpm:pcr:".toList) ++ (g ++ ':' :: (h ++ ['\n'])) := by
        simp [List.append_assoc]
      rw [hEq]
      exact hval

/-- Witness for C3's amended theorem: a well-formed selector with a
64-character digest is accepted, via the backward direction. -/
theorem selector_validator_language_witness :
    validate_pcr_selector_format ("tpm:pcr:".toList ++ (['0'] ++ ':' :: List.replicate 64 'a'))
      = true :=
  (selector_validator_language _).mpr
    (Or.inl ⟨['0'], List.replicate 64 'a', by decide, by decide, by decide, by decide,
      by decide, rfl⟩)

theorem getLast?_cons_of_ne_nil {a : Char} {l : List Char} (h : l ≠ []) :
    (a :: l).getLast? = l.getLast? := by
  cases l with
  | nil => exact absurd rfl h
  | cons b l' => exact List.getLast?_cons_cons

theorem hex_getLast_ne_nl {hx : List Char} (hne : hx ≠ [])
    (hall : ∀ c ∈ hx, isHexCh c = true) : ¬ hx.getLast? = some '\n' := by
  intro hlast
  have hmem : '\n' ∈ hx := by
    obtain ⟨hh, hxeq⟩ := List.mem_getLast?_eq_getLast (show '\n' ∈ hx.getLast? from by
      rw [hlast]; rfl)
    rw [hxeq]
    exact List.getLast_mem hh
  exact absurd (hall '\n' hmem) (by decide)

/-- C3 counterexample: the selector followed by one newline is accepted
by the source validator although it does not match the claim's anchored
regular expression. -/
theorem selector_validator_counterexample :
    validate_pcr_selector_format
      ("tpm:pcr:0:".toList ++ (List.replicate 32 'a' ++ ['\n'])) = true ∧
    ¬ SelForm ("tpm:pcr:0:".toList ++ (List.replicate 32 'a' ++ ['\n'])) := by
  constructor
  · decide
  · rintro ⟨g, h, hg, hhex, h32, _, _, heq⟩
    have hne : h ≠ [] := by
      intro h0
      rw [h0] at h32
      simp at h32
    have hlast : ("tpm:pcr:0:".toList ++ (List.replicate 32 'a' ++ ['\n'])).getLast?
        = some '\n' := by decide
    rw [heq] at hlast
    rw [List.getLast?_append_of_ne_nil _ (by simp : (g ++ ':' :: h) ≠ [])] at hlast
    rw [List.getLast?_append_of_ne_nil _ (by simp : (':' :: h) ≠ [])] at hlast
    rw [getLast?_cons_of_ne_nil hne] at hlast
    exact hex_getLast_ne_nl hne hhex hlast

theorem validate_on_agent_form {td hx : List Char} (tl : List Char)
    (htd : td ≠ []) (htdall : ∀ c ∈ td, isTdChar c = true)
    (hhx : hx ≠ []) (hhxall : ∀ c ∈ hx, isHexCh c = true)
    (htl : tl = [] ∨ tl = ['\n']) :
    validate_tpm_agent_spiffe_id_format
      ("spiffe://".toList ++ (td ++ ("/spire/agent/tpm/".toList ++ (hx ++ tl)))) = true := by
  have hhead1 : ∀ c l',
      ("/spire/agent/tpm/".toList ++ (hx ++ tl)) = c :: l' → isTdChar c = false := by
    intro c l' hc
    have hc' : ('/' :: ("spire/agent/tpm/".toList ++ (hx ++ tl))) = c :: l' := hc
    cases hc'
    decide
  obtain ⟨htake1, hdrop1⟩ := takeWhile_all_append htdall hhead1
  have hhead2 : ∀ c l', tl = c :: l' → isHexCh c = false := by
    intro c l' hc
    rcases htl with h0 | h0 <;> rw [h0] at hc
    · simp at hc
    · have hc2 : '\n' = c ∧ [] = l' := by simpa using hc
      rw [← hc2.1]
      decide
  obtain ⟨htake2, hdrop2⟩ := takeWhile_all_append hhxall hhead2
  unfold validate_tpm_agent_spiffe_id_format
  rw [dropStartL_of_append]
  try simp only []
  rw [htake1, hdrop1]
  rw [if_neg (show ¬ (td.isEmpty = true) from fun hcon => htd (by simpa using hcon))]
  rw [dropStartL_of_append]
  try simp only []
  rw [htake2, hdrop2]
  have hxe : hx.isEmpty = false := by
    cases hxe2 : hx.isEmpty
    · rfl
    · exact absurd (by simpa using hxe2) hhx
  rcases htl with h0 | h0 <;> rw [h0] <;> simp [hxe]

/-- C4 (amended): the agent identity-format validator accepts `u` iff
`u` is exactly the scheme, `://`, a non-empty trust domain over letters,
digits, dots and hyphens, the literal `/spire/agent/tpm/` and one or
more hex characters — **or** such a string followed by one trailing
newline, which Python's `re` also accepts because `$` matches just
before a final newline. -/
theorem agent_format_validator_language (u : List Char) :
    validate_tpm_agent_spiffe_id_format u = true ↔
      (AgentForm u ∨ ∃ u0, u = u0 ++ ['\n'] ∧ AgentForm u0) := by
  constructor
  · intro hv
    unfold validate_tpm_agent_spiffe_id_format at hv
    cases e1 : dropStartL ("spiffe://".toList) u with
    | none => rw [e1] at hv; simp at hv
    | some r1 =>
      rw [e1] at hv
      try simp only [] at hv
      by_cases hemp : (r1.takeWhile isTdChar).isEmpty = true
      · rw [if_pos hemp] at hv; simp at hv
      · rw [if_neg hemp] at hv
        cases e2 : dropStartL ("/spire/agent/tpm/".toList) (r1.dropWhile isTdChar) with
        | none => rw [e2] at hv; simp at hv
        | some r3 =>
          rw [e2] at hv
          try simp only [] at hv
          simp only [Bool.and_eq_true, Bool.or_eq_true, Bool.not_eq_true',
            decide_eq_true_eq] at hv
          obtain ⟨hhxe, htl⟩ := hv
          have hs : u = ("spiffe://".toList) ++ r1 := dropStartL_sound _ _ _ e1
          have hr2 : r1.dropWhile isTdChar = ("/spire/agent/tpm/".toList) ++ r3 :=
            dropStartL_sound _ _ _ e2
          have htdne : r1.takeWhile isTdChar ≠ [] := fun h0 => hemp (by simp [h0])
          have hhxne : r3.takeWhile isHexCh ≠ [] := by
            intro h0
            rw [h0] at hhxe
            simp at hhxe
          have htdall : ∀ c ∈ r1.takeWhile isTdChar, isTdChar c = true :=
            fun c hc => List.mem_takeWhile_imp hc
          have hhxall : ∀ c ∈ r3.takeWhile isHexCh, isHexCh c = true :=
            fun c hc => List.mem_takeWhile_imp hc
          have hr1Eq : r1 = r1.takeWhile isTdChar ++ ("/spire/agent/tpm/".toList ++ r3) := by
            conv_lhs => rw [← List.takeWhile_append_dropWhile isTdChar r1]
            rw [hr2]
          rcases htl with htl | htl
          · left
            refine ⟨r1.takeWhile isTdChar, r3.takeWhile isHexCh, htdne, htdall,
              hhxne, hhxall, ?_⟩
            have hr3Eq : r3 = r3.takeWhile isHexCh := by
              conv_lhs => rw [← List.takeWhile_append_dropWhile isHexCh r3]
              rw [htl, List.append_nil]
            rw [hs, ← hr3Eq]
            conv_lhs => rw [hr1Eq]
          · right
            refine ⟨("spiffe://".toList) ++ (r1.takeWhile isTdChar ++
              ("/spire/agent/tpm/".toList ++ r3.takeWhile isHexCh)), ?_,
              r1.takeWhile isTdChar, r3.takeWhile isHexCh, htdne, htdall,
              hhxne, hhxall, rfl⟩
            have hr3Eq : r3 = r3.takeWhile isHexCh ++ ['\n'] := by
              conv_lhs => rw [← List.takeWhile_append_dropWhile isHexCh r3]
              rw [htl]
            rw [hs]
            conv_lhs => rw [hr1Eq]
            conv_lhs => rw [hr3Eq]
            simp [List.append_assoc]
  · intro hcase
    rcases hcase with ⟨td, hx, htd, htdall, hhx, hhxall, rfl⟩ |
      ⟨u0, rfl, td, hx, htd, htdall, hhx, hhxall, rfl⟩
    · have hval := validate_on_agent_form [] htd htdall hhx hhxall (Or.inl rfl)
      simpa using hval
    · have hval := validate_on_agent_form ['\n'] htd htdall hhx hhxall (Or.inr rfl)
      have hEq : ("spiffe://".toList ++ (td ++ ("/spire/agent/tpm/".toList ++ hx))) ++ ['\n']
          = ("spiffe://".toList) ++ (td ++ ("/spire/agent/tpm/".toList ++ (hx ++ ['\n']))) := by
        simp [List.append_assoc]
      rw [hEq]
      exact hval

/-- Witness for C4's amended theorem at the spec's own valid example
`spiffe://example.org/spire/agent/tpm/a3f5d8c2e1b4`. -/
theorem agent_format_validator_language_witness :
    validate_tpm_agent_spiffe_id_format
      ("spiffe://".toList ++ ("example.org".toList ++
        ("/spire/agent/tpm/".toList ++ ("a3f5d8c2e1b4".toList)))) = true :=
  (agent_format_validator_language _).mpr
    (Or.inl ⟨("example.org".toList), ("a3f5d8c2e1b4".toList), by decide, by decide,
      by decide, by decide, rfl⟩)

/-- C4 counterexample: the agent identity followed by one newline is
accepted by the source validator although something (the newline)
follows the hex suffix. -/
theorem agent_format_validator_counterexample :
    validate_tpm_agent_spiffe_id_format
      ("spiffe://example.org/spire/agent/tpm/ab".toList ++ ['\n']) = true ∧
    ¬ AgentForm ("spiffe://example.org/spire/agent/tpm/ab".toList ++ ['\n']) := by
  constructor
  · decide
  · rintro ⟨td, hx, htd, htdall, hhx, hhxall, heq⟩
    have hlast : ("spiffe://example.org/spire/agent/tpm/ab".toList ++ ['\n']).getLast?
        = some '\n' := by decide
    rw [heq] at hlast
    rw [List.getLast?_append_of_ne_nil _
      (by simp : (td ++ ("/spire/agent/tpm/".toList ++ hx)) ≠ [])] at hlast
    rw [List.getLast?_append_of_ne_nil _
      (by simp : ("/spire/agent/tpm/".toList ++ hx) ≠ [])] at hlast
    rw [List.getLast?_append_of_ne_nil _ hhx] at hlast
    exact hex_getLast_ne_nl hhx hhxall hlast
